import Mathlib

/-!
# Verification of `busca_ciclos_no_grafo.py`

Shallow embedding, in Lean 4, of the cycle-search module
`src/busca_ciclos_no_grafo.py` (a nonrecursive variant of Johnson's
algorithm written against the igraph library), together with theorems
settling the frozen claims about it.

## Embedding conventions

* An igraph graph is modelled by `Graph`: a directedness flag, the list of
  stable vertex ids (the `'id'` attribute the code assigns, `subG.vs['id'] =
  [v.index for v in subG.vs]`), the list of directed edges between ids (one
  entry per edge, so parallel edges appear repeatedly, as in igraph), and the
  `'tipo'` vertex attribute as a total function on ids.
* `subG.neighbors(v, mode='out')` lists one out-neighbor per out-edge in edge
  order; `_get_neighbors` is `neighbors` below.
* Python `list.pop()` removes the *last* element.  Frames therefore store
  their remaining-neighbor list reversed, so that popping is taking the head.
  Likewise the DFS `path` and the SCC worklist are stored most-recent-first;
  `path[:]` of the Python code is `path.reverse` here.
* Python `set` iteration order is implementation defined.  The model
  determinizes it: `scc.pop()` picks the component's first vertex in
  vertex-creation order (for CPython small-int sets this is also the vertex
  actually picked), and `_unblock`'s work set is processed in list order.
* Machine integers are `Int`/`Nat`; fallible operations return `Except`.
* Loops are embedded as step functions iterated on explicit fuel; the fuel is
  threaded so that a `false` flag means the Python loop would still be
  running after that many iterations.
-/

/-- Number-of-vertices threshold for an SCC to be searched
(`MIN_SCC_SIZE = 2` in the source). -/
def MIN_SCC_SIZE : Nat := 2

/-- Model of an igraph graph restricted to what the module uses: the
directedness flag, stable vertex ids, directed edges (with multiplicity),
and the `'tipo'` vertex attribute. -/
structure Graph where
  directed : Bool
  verts : List Nat
  edges : List (Nat × Nat)
  tipo : Nat → String

/-- Well-formedness facts every igraph graph satisfies: vertex ids are
pairwise distinct and every edge endpoint is a vertex of the graph. -/
def Graph.WF (g : Graph) : Prop :=
  g.verts.Nodup ∧ ∀ e ∈ g.edges, e.1 ∈ g.verts ∧ e.2 ∈ g.verts

/-- `_get_neighbors(subG, node_id)`: the out-neighbors of `v`, one entry per
out-edge, in edge order. -/
def neighbors (g : Graph) (v : Nat) : List Nat :=
  (g.edges.filter (fun e => e.1 == v)).map Prod.snd

/-- `subG.delete_vertices(...)`: removes the listed vertex ids and every
incident edge; remaining ids are unchanged. -/
def deleteVerts (g : Graph) (vs : List Nat) : Graph :=
  { g with
    verts := g.verts.filter (fun v => !vs.contains v)
    edges := g.edges.filter (fun e => !vs.contains e.1 && !vs.contains e.2) }

/-- `subG.subgraph(...)`: the induced subgraph on the given vertex ids. -/
def induced (g : Graph) (vs : List Nat) : Graph :=
  { g with
    verts := g.verts.filter (fun v => vs.contains v)
    edges := g.edges.filter (fun e => vs.contains e.1 && vs.contains e.2) }

/-- One closure round of forward reachability: add the target of every edge
whose source is already reached. -/
def reachStep (g : Graph) (S : List Nat) : List Nat :=
  g.edges.foldl (fun acc e => if S.contains e.1 then acc.insert e.2 else acc) S

/-- Vertices reachable from `u` (including `u`), computed by iterating the
closure round more often than any simple path can be long. -/
def reachList (g : Graph) (u : Nat) : List Nat :=
  (reachStep g)^[g.verts.length + 1] [u]

/-- Mutual reachability: `u` and `v` lie in the same strongly connected
component (the semantics of igraph's `components(mode='STRONG')`). -/
def sameSCC (g : Graph) (u v : Nat) : Bool :=
  (reachList g u).contains v && (reachList g v).contains u

/-- Partition a list of vertices into strongly-connected classes, each class
listed in vertex-creation order, classes ordered by first member.  The
fuel argument makes the recursion structural (so that it computes inside
the kernel); `sccListAux_fuel` below shows any fuel at least the list's
length gives the same, fuel-independent result, so the zero-fuel arm is
unreachable from `strongly_connected_components`. -/
def sccListAux (g : Graph) : Nat → List Nat → List (List Nat)
  | _, [] => []
  | 0, _ :: _ => []
  | f + 1, v :: rest =>
      (v :: rest.filter (fun w => sameSCC g v w)) ::
        sccListAux g f (rest.filter (fun w => !sameSCC g v w))

/-- The fuel of `sccListAux` is irrelevant as long as it is at least the
length of the vertex list. -/
theorem sccListAux_fuel (g : Graph) :
    ∀ (f f' : Nat) (l : List Nat), l.length ≤ f → l.length ≤ f' →
      sccListAux g f l = sccListAux g f' l := by
  intro f
  induction f with
  | zero =>
    intro f' l hf _
    rcases l with _ | ⟨v, rest⟩
    · cases f' <;> rfl
    · simp at hf
  | succ f ih =>
    intro f' l hf hf'
    rcases l with _ | ⟨v, rest⟩
    · cases f' <;> rfl
    · rcases f' with _ | f'
      · simp at hf'
      · simp only [sccListAux]
        congr 1
        exact ih f' _
          (le_trans (List.length_filter_le _ _) (by simpa using hf))
          (le_trans (List.length_filter_le _ _) (by simpa using hf'))

/-- `_strongly_connected_components(subG, min_scc_size)`: the SCCs of the
graph, filtered to those with at least `minSize` vertices. -/
def strongly_connected_components (g : Graph) (minSize : Nat) : List (List Nat) :=
  (sccListAux g g.verts.length g.verts).filter (fun scc => minSize ≤ scc.length)

/-- The early-exit counting loop inside `is_path_in_limit`: walk the path,
incrementing a counter on each vertex of type `T`, failing as soon as the
counter exceeds `limit_len`. -/
def typeLimitScan (tipo : Nat → String) (T : String) (ll : Int) :
    List Nat → Int → Bool
  | [], _ => true
  | v :: rest, cnt =>
      if tipo v == T then
        if cnt + 1 > ll then false else typeLimitScan tipo T ll rest (cnt + 1)
      else typeLimitScan tipo T ll rest cnt

/-- `is_path_in_limit(subG, path, limit_len, limit_node_type)`.  The `path`
argument may be given in either orientation: the result only depends on the
multiset of its vertices and its length. -/
def is_path_in_limit (tipo : Nat → String) (path : List Nat) (ll : Int)
    (lt : Option String) : Bool :=
  if ll < 0 then true
  else
    match lt with
    | none => decide ((path.length : Int) ≤ ll)
    | some T => typeLimitScan tipo T ll path 0

/-- The `B` map (`defaultdict(set)` in the source): association list from a
vertex to the set of vertices whose unblocking must cascade to it.  A missing
key denotes the empty set. -/
def lookupB (B : List (Nat × List Nat)) (k : Nat) : List Nat :=
  match B.find? (fun p => p.1 == k) with
  | some p => p.2
  | none => []

/-- `B[node].clear()`: drop the entry for `k` (extensionally, set it to `∅`). -/
def clearB (B : List (Nat × List Nat)) (k : Nat) : List (Nat × List Nat) :=
  B.filter (fun p => p.1 != k)

/-- `B[k].add(v)` guarded by `if v not in B[k]`. -/
def addB (B : List (Nat × List Nat)) (k v : Nat) : List (Nat × List Nat) :=
  if (lookupB B k).contains v then B else (k, v :: lookupB B k) :: clearB B k

/-- The registration loop of the non-`closed` branch:
`for nbr in _get_neighbors(subG, thisnode): if thisnode not in B[nbr]:
B[nbr].add(thisnode)`. -/
def registerB (v : Nat) (nbrs : List Nat) (B : List (Nat × List Nat)) :
    List (Nat × List Nat) :=
  nbrs.foldl (fun Bm nbr => addB Bm nbr v) B

/-- Loop measure for `_unblock`: worklist length plus blocked-set size plus
the total size of the values of `B`.  Every round of the loop strictly
decreases it. -/
def unblockMeasure (ustack blocked : List Nat)
    (B : List (Nat × List Nat)) : Nat :=
  ustack.length + blocked.length + (B.map (fun p => p.2.length)).sum

/-- The worklist loop of `_unblock`: pop a vertex; if it is blocked, unblock
it, enqueue everything recorded for it in `B`, and clear its `B` entry.
The fuel argument makes the recursion structural; `unblockAux_fuel` below
shows any fuel exceeding `unblockMeasure` gives the same, fuel-independent
result, so the zero-fuel arm is unreachable from `unblock`. -/
def unblockAux : Nat → List Nat → List Nat → List (Nat × List Nat) →
    List Nat × List (Nat × List Nat)
  | _, [], blocked, B => (blocked, B)
  | 0, _ :: _, blocked, B => (blocked, B)
  | f + 1, node :: rest, blocked, B =>
      if blocked.contains node then
        unblockAux f
          (rest ++ (lookupB B node).filter (fun w => !rest.contains w))
          (blocked.erase node) (clearB B node)
      else
        unblockAux f rest blocked B

/-- `_unblock(thisnode, blocked, B)`: returns the updated `(blocked, B)`. -/
def unblock (thisnode : Nat) (blocked : List Nat)
    (B : List (Nat × List Nat)) : List Nat × List (Nat × List Nat) :=
  unblockAux (unblockMeasure [thisnode] blocked B + 1) [thisnode] blocked B

/-- Clearing a key removes at least as much total value size as the key's
first entry holds. -/
theorem sum_clearB_le (B : List (Nat × List Nat)) (k : Nat) :
    ((clearB B k).map (fun p => p.2.length)).sum + (lookupB B k).length ≤
      (B.map (fun p => p.2.length)).sum := by
  induction B with
  | nil => simp [clearB, lookupB]
  | cons e B ih =>
    by_cases hk : e.1 = k
    · have h1 : lookupB (e :: B) k = e.2 := by
        simp [lookupB, List.find?, hk]
      have h2 : clearB (e :: B) k = clearB B k := by
        simp [clearB, List.filter_cons, hk]
      rw [h1, h2]
      have h3 : ((clearB B k).map (fun p => p.2.length)).sum ≤
          ((B.map (fun p => p.2.length))).sum := by
        refine List.Sublist.sum_le_sum ?_ (by intro x _; omega)
        exact (List.filter_sublist B).map _
      simp only [List.map_cons, List.sum_cons]
      omega
    · have hbe : (e.1 == k) = false := by simpa using hk
      have h1 : lookupB (e :: B) k = lookupB B k := by
        simp [lookupB, List.find?, hbe]
      have h2 : clearB (e :: B) k = e :: clearB B k := by
        simp [clearB, List.filter_cons, bne, hbe]
      rw [h1, h2]
      simp only [List.map_cons, List.sum_cons]
      omega

/-- The fuel of `unblockAux` is irrelevant as long as it exceeds
`unblockMeasure`: every loop round strictly decreases the measure, so the
loop empties its worklist within that many rounds (this is the
termination of `_unblock`). -/
theorem unblockAux_fuel :
    ∀ (f f' : Nat) (ustack blocked : List Nat) (B : List (Nat × List Nat)),
      unblockMeasure ustack blocked B < f →
      unblockMeasure ustack blocked B < f' →
      unblockAux f ustack blocked B = unblockAux f' ustack blocked B := by
  intro f
  induction f with
  | zero => intro f' ustack blocked B hf _; omega
  | succ f ih =>
    intro f' ustack blocked B hf hf'
    rcases ustack with _ | ⟨node, rest⟩
    · cases f' <;> rfl
    · rcases f' with _ | f'
      · omega
      · simp only [unblockAux]
        by_cases hb : blocked.contains node
        · simp only [if_pos hb]
          apply ih
          all_goals
            have hmem : node ∈ blocked := by simpa using hb
            have he : (blocked.erase node).length + 1 = blocked.length := by
              have := List.length_erase_of_mem hmem
              have := List.length_pos_of_mem hmem
              omega
            have hcl := sum_clearB_le B node
            have hfl : ((lookupB B node).filter
                (fun w => !rest.contains w)).length ≤ (lookupB B node).length :=
              List.length_filter_le _ _
            simp only [unblockMeasure, List.length_cons, List.length_append] at *
            omega
        · simp only [if_neg hb]
          apply ih
          all_goals
            simp only [unblockMeasure, List.length_cons] at *
            omega

/-- The per-anchor search state of the inner loop (`SearchState` of the
spec).  `stack` and `path` are stored most-recent-first; each frame's
remaining-neighbor list is stored reversed so that Python's `nbrs.pop()`
(pop from the end) is taking the head.  `out` is the list of cycles
emitted so far, oldest first, each in Python order (anchor first). -/
structure SearchSt where
  stack : List (Nat × List Nat)
  path : List Nat
  blocked : List Nat
  closed : List Nat
  B : List (Nat × List Nat)
  out : List (List Nat)
  deriving Repr, DecidableEq

/-- State at the head of the inner loop for anchor `s`:
`path = [s]; blocked = {s}; closed = {}; B = {}; stack = [(s, nbrs(s))]`. -/
def initSearch (g : Graph) (s : Nat) : SearchSt :=
  { stack := [(s, (neighbors g s).reverse)]
    path := [s]
    blocked := [s]
    closed := []
    B := []
    out := [] }

/-- The frame-popping tail of a loop iteration: unblock or register
`thisnode`, then `stack.pop(); path.pop()`. -/
def popFrame (g : Graph) (v : Nat) (rest : List (Nat × List Nat))
    (st : SearchSt) : SearchSt :=
  if st.closed.contains v then
    let r := unblock v st.blocked st.B
    { st with blocked := r.1, B := r.2, stack := rest, path := st.path.tail }
  else
    { st with B := registerB v (neighbors g v) st.B, stack := rest,
              path := st.path.tail }

/-- One iteration of the inner `while stack:` loop of `simple_cycles_ig`
(a no-op on a halted state, i.e. when the stack is empty). -/
def innerStep (g : Graph) (ll : Int) (lt : Option String) (start : Nat)
    (st : SearchSt) : SearchSt :=
  match st.stack with
  | [] => st
  | (v, l) :: rest =>
    match l, is_path_in_limit g.tipo st.path ll lt with
    | x :: l', true =>
        if x = start then
          -- `yield path[:]; closed.update(path)`
          let st1 := { st with
            out := st.out ++ [st.path.reverse]
            closed := st.path.foldl (fun c u => c.insert u) st.closed
            stack := (v, l') :: rest }
          if l' = [] then popFrame g v rest st1 else st1
        else if st.blocked.contains x then
          let st1 := { st with stack := (v, l') :: rest }
          if l' = [] then popFrame g v rest st1 else st1
        else
          -- push `x` and continue
          { st with
            stack := (x, (neighbors g x).reverse) :: (v, l') :: rest
            path := x :: st.path
            closed := st.closed.erase x
            blocked := st.blocked.insert x }
    | _, _ => popFrame g v rest st

/-- Run the inner loop until its stack empties, for at most `fuel`
iterations; the flag is `false` iff the fuel ran out first. -/
def innerRun (g : Graph) (ll : Int) (lt : Option String) (start : Nat) :
    Nat → SearchSt → SearchSt × Bool
  | fuel, st =>
    match st.stack with
    | [] => (st, true)
    | _ :: _ =>
      match fuel with
      | 0 => (st, false)
      | f + 1 => innerRun g ll lt start f (innerStep g ll lt start st)

/-- Generous fuel for the inner loop: the initial value of a weighted sum
over the stack that decreases at every iteration as long as the stack
stays no deeper than the vertex count.  (Whether it always suffices is the
open termination question of the search; the run's flag records whether it
did.) -/
def innerFuel (g : Graph) (s : Nat) : Nat :=
  ((neighbors g s).length + 1) * (g.edges.length + 2) ^ (g.verts.length + 1)

/-- The anchor-finalization block at the bottom of the outer loop:
`subG.delete_vertices(startnode)`, induced subgraph `H` on the residual SCC,
`scc_extend_list = _strongly_connected_components(H)` (note: with the
*default* `min_scc_size = 1`), then one pass over the components appending
the large ones to the worklist and deleting the small ones' vertices.
Returns the updated graph and the components to append, in order. -/
def finalizeAnchor (g : Graph) (residual : List Nat) (s : Nat) :
    Graph × List (List Nat) :=
  let g1 := deleteVerts g [s]
  let H := induced g1 residual
  let comps := strongly_connected_components H 1
  comps.foldl
    (fun acc c =>
      if MIN_SCC_SIZE ≤ c.length then (acc.1, acc.2 ++ [c])
      else (deleteVerts acc.1 c, acc.2))
    (g1, ([] : List (List Nat)))

/-- State of the outer `while sccs:` loop.  The worklist is stored with the
next component to be popped at the head (Python pops from the end of its
list, so this is the Python worklist reversed). -/
structure OuterSt where
  g : Graph
  sccs : List (List Nat)
  out : List (List Nat)

/-- The outer `while sccs:` loop, with at most `fuel` iterations; the flag
is `false` iff some fuel (outer or inner) ran out.  An empty component on
the worklist is skipped; this situation is unreachable (every enqueued
component has at least `MIN_SCC_SIZE = 2` vertices; on it CPython's
`set().pop()` would raise). -/
def outerRun (ll : Int) (lt : Option String) :
    Nat → OuterSt → OuterSt × Bool
  | _, { g := g, sccs := [], out := out } => ({ g := g, sccs := [], out := out }, true)
  | 0, st => (st, false)
  | f + 1, { g := g, sccs := [] :: rest, out := out } =>
      outerRun ll lt f { g := g, sccs := rest, out := out }
  | f + 1, { g := g, sccs := (s :: residual) :: rest, out := out } =>
      let res := innerRun g ll lt s (innerFuel g s) (initSearch g s)
      let fin := finalizeAnchor g residual s
      let r := outerRun ll lt f
        { g := fin.1, sccs := fin.2.reverse ++ rest, out := out ++ res.1.out }
      (r.1, res.2 && r.2)

/-- The whole enumeration of `simple_cycles_ig` after its argument checks:
initial SCCs (min size `MIN_SCC_SIZE`), then the outer loop.  Returns the
emitted cycles in emission order plus the all-fuel-sufficed flag. -/
def simple_cycles_run (g : Graph) (ll : Int) (lt : Option String) :
    List (List Nat) × Bool :=
  let sccs0 := strongly_connected_components g MIN_SCC_SIZE
  let r := outerRun ll lt ((sccs0.map List.length).sum + 1)
    { g := g, sccs := sccs0.reverse, out := [] }
  (r.1.out, r.2)

/-- The list of cycles `simple_cycles_ig` emits, each in Python order
(anchor vertex first). -/
def simple_cycles_list (g : Graph) (ll : Int) (lt : Option String) :
    List (List Nat) :=
  (simple_cycles_run g ll lt).1

/-- The `limit_len` argument as it may arrive from the CLI: either already
an `int` or a string to be parsed by Python's `int(...)`. -/
inductive LimitArg where
  | int (i : Int)
  | str (s : String)

/-- Accumulate decimal digits; `none` on any non-digit character. -/
def digitsAux : List Char → Nat → Option Nat
  | [], acc => some acc
  | c :: rest, acc =>
      if 48 ≤ c.toNat ∧ c.toNat ≤ 57 then
        digitsAux rest (acc * 10 + (c.toNat - 48))
      else none

/-- Parse a nonempty all-digit string. -/
def digitsToNat? (l : List Char) : Option Nat :=
  if l.isEmpty then none else digitsAux l 0

/-- Python's `int(...)` on a string, restricted to the plain decimal
literals (optionally negated) the CLI can pass; anything else raises
`ValueError`, modelled as `none`. -/
def parsePyInt (s : String) : Option Int :=
  match s.data with
  | '-' :: rest => (digitsToNat? rest).map (fun n => -(n : Int))
  | l => (digitsToNat? l).map (fun n => (n : Int))

/-- Python's `int(limit_len)` on such a value: `none` models the
`ValueError` of an unparseable string. -/
def LimitArg.toInt? : LimitArg → Option Int
  | .int i => some i
  | .str s => parsePyInt s

/-- The configuration failures `simple_cycles_ig` raises before searching
(both are a bare `raise Exception(...)` in the source). -/
inductive CfgError where
  | notDirectedGraph
  | limitNotInt (raw : LimitArg)

/-- `simple_cycles_ig(G, limit_len, limit_node_type)`: validate that the
graph is directed and the limit converts to an `int`, then enumerate.  The
two checks happen in source order, before any search. -/
def simple_cycles_ig (g : Graph) (la : LimitArg) (lt : Option String) :
    Except CfgError (List (List Nat)) :=
  if g.directed = false then .error .notDirectedGraph
  else
    match la.toInt? with
    | none => .error (.limitNotInt la)
    | some l => .ok (simple_cycles_list g l lt)

/-- The `'tipo'` derivation of `search_cycles`:
`name.split('-')[0]`. -/
def derive_tipo (name : String) : String :=
  (name.splitOn "-").headD ""

/-- Graph construction of `search_cycles`: intern vertex names in order of
first appearance (igraph's `Graph.DictList`), derive each vertex's `'tipo'`
from its name, build a directed graph. -/
def buildGraph (rows : List (String × String)) : Graph :=
  let names := rows.foldl (fun acc r =>
    let acc1 := if acc.contains r.1 then acc else acc ++ [r.1]
    if acc1.contains r.2 then acc1 else acc1 ++ [r.2]) []
  { directed := true
    verts := List.range names.length
    edges := rows.map (fun r => (names.indexOf r.1, names.indexOf r.2))
    tipo := fun i => derive_tipo (names.getD i "") }

/-- One write of a discovered cycle to the output destination
(`with open(txt_cycles_output, 'a') as fd: print(cycle, file=fd)`), as an
effect that may fail; then the loop writing every cycle, stopping at the
first failure. -/
def writeAll (write : List Nat → Except String Unit) :
    List (List Nat) → Except String Unit
  | [] => .ok ()
  | c :: rest =>
    match write c with
    | .error e => .error e
    | .ok _ => writeAll write rest

/-- `search_cycles`: build the graph from the CSV rows (any failure opening
or reading the CSV happens before the `try` block and propagates), then,
inside `try ... except Exception`, enumerate cycles and write each one;
every exception raised there is logged and suppressed.  The CSV source is
modelled as an `Except` (its error is whatever `open`/`csv` raised), the
output destination as a per-cycle write effect. -/
def search_cycles (csvData : Except String (List (String × String)))
    (write : List Nat → Except String Unit) (la : LimitArg)
    (lt : Option String) : Except String Unit :=
  match csvData with
  | .error e => .error e
  | .ok rows =>
    let g := buildGraph rows
    match simple_cycles_ig g la lt with
    | .error _ => .ok ()
    | .ok cycles =>
      match writeAll write cycles with
      | .error _ => .ok ()
      | .ok _ => .ok ()

/-! ## Properties of the limit predicate -/

/-- The early-exit scan succeeds iff either no vertex of the path has the
limited type, or the running count plus the path's typed-vertex count stays
within `limit_len`. -/
theorem typeLimitScan_eq_true (tipo : Nat → String) (T : String) (ll : Int) :
    ∀ (p : List Nat) (cnt : Int),
      typeLimitScan tipo T ll p cnt = true ↔
        (p.countP (fun v => tipo v == T) = 0 ∨
          cnt + (p.countP (fun v => tipo v == T) : Int) ≤ ll) := by
  intro p
  induction p with
  | nil => intro cnt; simp [typeLimitScan]
  | cons v rest ih =>
    intro cnt
    by_cases hv : tipo v == T
    · rw [List.countP_cons_of_pos _ _ (by simpa using hv)]
      by_cases hover : cnt + 1 > ll
      · have : typeLimitScan tipo T ll (v :: rest) cnt = false := by
          simp [typeLimitScan, hv, hover]
        rw [this]
        have hnn : (0 : Int) ≤ (rest.countP (fun v => tipo v == T) : Int) :=
          Int.natCast_nonneg _
        constructor
        · intro h; cases h
        · intro h
          rcases h with h | h
          · omega
          · omega
      · have : typeLimitScan tipo T ll (v :: rest) cnt =
            typeLimitScan tipo T ll rest (cnt + 1) := by
          simp [typeLimitScan, hv, hover]
        rw [this, ih (cnt + 1)]
        constructor
        · intro h
          rcases h with h | h
          · right; push_cast; omega
          · right; push_cast at h ⊢; omega
        · intro h
          rcases h with h | h
          · omega
          · right; push_cast at h ⊢; omega
    · rw [List.countP_cons_of_neg _ _ (by simpa using hv)]
      have : typeLimitScan tipo T ll (v :: rest) cnt =
          typeLimitScan tipo T ll rest cnt := by
        simp [typeLimitScan, hv]
      rw [this, ih cnt]

/-- With a nonnegative limit and no type restriction, the limit predicate is
exactly the length bound (Python `len(path) <= limit_len`). -/
theorem is_path_in_limit_none (tipo : Nat → String) (p : List Nat) (ll : Int)
    (hll : 0 ≤ ll) :
    (is_path_in_limit tipo p ll none = true ↔ (p.length : Int) ≤ ll) := by
  simp [is_path_in_limit, Int.not_lt.mpr hll]

/-- With a nonnegative limit and a type restriction, the limit predicate
implies the typed-vertex-count bound. -/
theorem is_path_in_limit_some (tipo : Nat → String) (p : List Nat) (ll : Int)
    (T : String) (hll : 0 ≤ ll)
    (h : is_path_in_limit tipo p ll (some T) = true) :
    (p.countP (fun v => tipo v == T) : Int) ≤ ll := by
  have hscan : typeLimitScan tipo T ll p 0 = true := by
    simpa [is_path_in_limit, Int.not_lt.mpr hll] using h
  rcases (typeLimitScan_eq_true tipo T ll p 0).mp hscan with h0 | h0
  · rw [h0]; exact_mod_cast hll
  · omega

/-! ## Soundness of emission with respect to the limit predicate -/

/-- `popFrame` never emits. -/
theorem popFrame_out (g : Graph) (v : Nat) (rest : List (Nat × List Nat))
    (st : SearchSt) : (popFrame g v rest st).out = st.out := by
  unfold popFrame
  split <;> rfl

/-- One loop iteration either leaves the output alone or appends a copy of
the current path, and in the latter case the current path passed the limit
check (this is the `yield` guard of the source). -/
theorem innerStep_out_mem (g : Graph) (ll : Int) (lt : Option String)
    (s : Nat) (st : SearchSt) (c : List Nat)
    (hc : c ∈ (innerStep g ll lt s st).out) :
    c ∈ st.out ∨
      (c = st.path.reverse ∧ is_path_in_limit g.tipo st.path ll lt = true) := by
  rcases hst : st.stack with _ | ⟨⟨v, l⟩, rest⟩
  · left; simpa [innerStep, hst] using hc
  · rcases hl : l with _ | ⟨x, l'⟩
    · left; simpa [innerStep, hst, hl, popFrame_out] using hc
    · by_cases hg : is_path_in_limit g.tipo st.path ll lt = true
      · by_cases hx : x = s
        · have hc' : c ∈ st.out ++ [st.path.reverse] := by
            by_cases hle : l' = [] <;>
              simpa [innerStep, hst, hl, hg, hx, hle, popFrame_out] using hc
          rcases List.mem_append.mp hc' with h | h
          · exact Or.inl h
          · exact Or.inr ⟨List.mem_singleton.mp h, hg⟩
        · left
          by_cases hle : l' = [] <;>
            simpa [innerStep, hst, hl, hg, hx, hle, apply_ite SearchSt.out,
              popFrame_out] using hc
      · have hg' : is_path_in_limit g.tipo st.path ll lt = false := by
          simpa using hg
        left
        simpa [innerStep, hst, hl, hg', popFrame_out] using hc

/-- Every cycle in the output of a full inner-loop run either was already in
the output or is the reversal of a path that passed the limit check. -/
theorem innerRun_out_mem (g : Graph) (ll : Int) (lt : Option String)
    (s : Nat) :
    ∀ (fuel : Nat) (st : SearchSt),
      (∀ c ∈ st.out, is_path_in_limit g.tipo c.reverse ll lt = true) →
      ∀ c ∈ (innerRun g ll lt s fuel st).1.out,
        is_path_in_limit g.tipo c.reverse ll lt = true := by
  intro fuel
  induction fuel with
  | zero =>
    intro st hst c hc
    have hz : (innerRun g ll lt s 0 st).1 = st := by
      rcases h : st.stack with _ | ⟨fr, rest⟩ <;> simp [innerRun, h]
    rw [hz] at hc
    exact hst c hc
  | succ f ih =>
    intro st hst c hc
    rcases h : st.stack with _ | ⟨fr, rest⟩
    · have hz : (innerRun g ll lt s (f + 1) st).1 = st := by
        simp [innerRun, h]
      rw [hz] at hc
      exact hst c hc
    · have hz : innerRun g ll lt s (f + 1) st =
          innerRun g ll lt s f (innerStep g ll lt s st) := by
        simp [innerRun, h]
      rw [hz] at hc
      refine ih (innerStep g ll lt s st) ?_ c hc
      intro d hd
      rcases innerStep_out_mem g ll lt s st d hd with h1 | ⟨h1, h2⟩
      · exact hst d h1
      · rw [h1, List.reverse_reverse]; exact h2

/-! ## The finalize-anchor block -/

/-- `contains` distributes over append. -/
theorem contains_append (a b : List Nat) (v : Nat) :
    (a ++ b).contains v = (a.contains v || b.contains v) := by
  induction a with
  | nil => simp
  | cons x xs ih => simp [List.contains_cons, ih, Bool.or_assoc]

/-- Deleting vertex sets one after the other deletes their union. -/
theorem deleteVerts_deleteVerts (g : Graph) (a b : List Nat) :
    deleteVerts (deleteVerts g a) b = deleteVerts g (a ++ b) := by
  simp only [deleteVerts, List.filter_filter]
  congr 1
  · apply List.filter_congr
    intro v _
    rw [contains_append]
    cases a.contains v <;> cases b.contains v <;> rfl
  · apply List.filter_congr
    intro e _
    rw [contains_append, contains_append]
    cases a.contains e.1 <;> cases b.contains e.1 <;>
      cases a.contains e.2 <;> cases b.contains e.2 <;> rfl

/-- Deleting no vertices is the identity. -/
theorem deleteVerts_nil (g : Graph) : deleteVerts g [] = g := by
  cases g
  simp [deleteVerts]

/-- Closed form of the component pass of `finalizeAnchor`'s fold: the
worklist gains exactly the components meeting `MIN_SCC_SIZE`, and exactly
the vertices of the components below `MIN_SCC_SIZE` are deleted. -/
theorem finalize_fold (comps : List (List Nat)) :
    ∀ (G : Graph) (acc : List (List Nat)),
      comps.foldl
        (fun acc c =>
          if MIN_SCC_SIZE ≤ c.length then (acc.1, acc.2 ++ [c])
          else (deleteVerts acc.1 c, acc.2)) (G, acc) =
      (deleteVerts G (comps.filter (fun c => c.length < MIN_SCC_SIZE)).flatten,
       acc ++ comps.filter (fun c => MIN_SCC_SIZE ≤ c.length)) := by
  induction comps with
  | nil => intro G acc; simp [deleteVerts_nil]
  | cons c cs ih =>
    intro G acc
    by_cases hc : MIN_SCC_SIZE ≤ c.length
    · have hns : ¬ c.length < MIN_SCC_SIZE := by omega
      simp [List.foldl_cons, if_pos hc, ih, List.filter_cons, hc, hns]
    · have hns : c.length < MIN_SCC_SIZE := by omega
      simp [List.foldl_cons, if_neg hc, ih, List.filter_cons, hc, hns,
        deleteVerts_deleteVerts]

/-- Closed form of `finalizeAnchor`: delete the anchor, recompute the SCCs
of the induced residual subgraph with minimum size 1, return the graph with
additionally all vertices of the sub-SCCs smaller than `MIN_SCC_SIZE`
deleted, together with the sub-SCCs of size at least `MIN_SCC_SIZE`. -/
theorem finalizeAnchor_eq (g : Graph) (residual : List Nat) (s : Nat) :
    finalizeAnchor g residual s =
      (deleteVerts g ([s] ++
        ((strongly_connected_components (induced (deleteVerts g [s]) residual) 1).filter
          (fun c => c.length < MIN_SCC_SIZE)).flatten),
       (strongly_connected_components (induced (deleteVerts g [s]) residual) 1).filter
         (fun c => MIN_SCC_SIZE ≤ c.length)) := by
  unfold finalizeAnchor
  rw [finalize_fold, ← deleteVerts_deleteVerts]
  simp

/-- `finalizeAnchor` does not touch the `'tipo'` attribute. -/
theorem finalizeAnchor_tipo (g : Graph) (residual : List Nat) (s : Nat) :
    (finalizeAnchor g residual s).1.tipo = g.tipo := by
  rw [finalizeAnchor_eq]
  rfl

/-! ## Limit soundness of the whole enumeration -/

/-- Every cycle the outer loop adds to the output passed the limit check at
emission time (stated against the `'tipo'` map of the original graph, which
all intermediate graphs share). -/
theorem outerRun_out_mem (ll : Int) (lt : Option String) (τ : Nat → String) :
    ∀ (fuel : Nat) (st : OuterSt), st.g.tipo = τ →
      (∀ c ∈ st.out, is_path_in_limit τ c.reverse ll lt = true) →
      ∀ c ∈ (outerRun ll lt fuel st).1.out,
        is_path_in_limit τ c.reverse ll lt = true := by
  intro fuel
  induction fuel with
  | zero =>
    rintro ⟨G, sccs, out⟩ hτ hout c hc
    rcases sccs with _ | ⟨scc, rest⟩ <;>
      exact hout c (by simpa [outerRun] using hc)
  | succ f ih =>
    rintro ⟨G, sccs, out⟩ hτ hout c hc
    rcases sccs with _ | ⟨_ | ⟨s, residual⟩, rest⟩
    · exact hout c (by simpa [outerRun] using hc)
    · have hz : (outerRun ll lt (f + 1) ⟨G, [] :: rest, out⟩).1 =
          (outerRun ll lt f ⟨G, rest, out⟩).1 := by
        simp [outerRun]
      rw [hz] at hc
      exact ih ⟨G, rest, out⟩ hτ hout c hc
    · have hz : (outerRun ll lt (f + 1) ⟨G, (s :: residual) :: rest, out⟩).1 =
          (outerRun ll lt f
            ⟨(finalizeAnchor G residual s).1,
             (finalizeAnchor G residual s).2.reverse ++ rest,
             out ++ (innerRun G ll lt s (innerFuel G s) (initSearch G s)).1.out⟩).1 := by
        simp [outerRun]
      rw [hz] at hc
      refine ih _ ?_ ?_ c hc
      · simpa [finalizeAnchor_tipo] using hτ
      · intro d hd
        rcases List.mem_append.mp hd with h | h
        · exact hout d h
        · have := innerRun_out_mem G ll lt s (innerFuel G s) (initSearch G s)
            (by simp [initSearch]) d h
          rwa [hτ] at this

/-- Every emitted cycle, reversed back into Python's path orientation,
passes the limit check. -/
theorem simple_cycles_list_limit (g : Graph) (ll : Int) (lt : Option String) :
    ∀ c ∈ simple_cycles_list g ll lt,
      is_path_in_limit g.tipo c.reverse ll lt = true := by
  intro c hc
  have hc' : c ∈ (outerRun ll lt
      (((strongly_connected_components g MIN_SCC_SIZE).map List.length).sum + 1)
      ⟨g, (strongly_connected_components g MIN_SCC_SIZE).reverse, []⟩).1.out := by
    simpa [simple_cycles_list, simple_cycles_run] using hc
  exact outerRun_out_mem ll lt g.tipo _ _ rfl (by simp) c hc'

/-! ## Concrete graphs used by the claims -/

/-- Two mutually linked vertices where vertex 0 also has a self-loop:
`0→0, 0→1, 1→0`.  The SCC `{0,1}` has size 2, so it is searched. -/
def gSelfLoopSCC : Graph :=
  { directed := true, verts := [0, 1], edges := [(0, 0), (0, 1), (1, 0)],
    tipo := fun _ => "" }

/-- A 2-cycle where both vertices carry self-loops:
`0→0, 1→1, 0→1, 1→0`.  Whichever vertex is anchored first, its self-loop
is reachable from the anchor frame. -/
def gDoubleLoop : Graph :=
  { directed := true, verts := [0, 1],
    edges := [(0, 0), (1, 1), (0, 1), (1, 0)], tipo := fun _ => "" }

/-- A 2-cycle whose edge `0→1` appears twice: `0→1, 0→1, 1→0`. -/
def gDupEdge : Graph :=
  { directed := true, verts := [0, 1], edges := [(0, 1), (0, 1), (1, 0)],
    tipo := fun _ => "" }

/-- `gDupEdge` with the duplicate edge removed: `0→1, 1→0`. -/
def gDupEdgeDedup : Graph :=
  { directed := true, verts := [0, 1], edges := [(0, 1), (1, 0)],
    tipo := fun _ => "" }

/-- A plain 2-cycle `0→1, 1→0`. -/
def gTwoCycle : Graph :=
  { directed := true, verts := [0, 1], edges := [(0, 1), (1, 0)],
    tipo := fun _ => "" }

/-- The directed triangle `0→1→2→0` where only vertex `0` has type
`"tipoA"`. -/
def gTriTyped : Graph :=
  { directed := true, verts := [0, 1, 2], edges := [(0, 1), (1, 2), (2, 0)],
    tipo := fun v => if v == 0 then "tipoA" else "tipoB" }

/-- The plain directed triangle `0→1→2→0`. -/
def gTri : Graph :=
  { directed := true, verts := [0, 1, 2], edges := [(0, 1), (1, 2), (2, 0)],
    tipo := fun _ => "" }

/-- An undirected graph (igraph's `is_directed()` returns `False`). -/
def gUndir : Graph :=
  { directed := false, verts := [0, 1], edges := [(0, 1), (1, 0)],
    tipo := fun _ => "" }

/-- A strongly connected 5-vertex digraph on which the `limit_len = 3`
search violates the blocking discipline. -/
def gInv : Graph :=
  { directed := true, verts := [0, 1, 2, 3, 4],
    edges := [(0, 1), (0, 2), (0, 4), (1, 0), (1, 2), (1, 4), (2, 1),
      (2, 3), (3, 0), (3, 1), (3, 4), (4, 0), (4, 1)],
    tipo := fun _ => "" }

/-! ## Claims C2 and C3: the limit policy -/

/-- `countP` is invariant under reversal. -/
theorem countP_reverse (p : Nat → Bool) (l : List Nat) :
    l.reverse.countP p = l.countP p := by
  induction l with
  | nil => rfl
  | cons x xs ih =>
    simp [List.reverse_cons, List.countP_append, List.countP_cons, ih]

/-- C2: with `limit_len = L ≥ 0` and no type restriction, every cycle
`simple_cycles_ig` emits has at most `L` vertices, and a path passes the
extension check exactly when `len(path) ≤ L` (equivalently, extension is
rejected exactly when `len(path) > L`). -/
theorem C2_length_limit (g : Graph) (L : Int) (hL : 0 ≤ L) :
    (∀ c ∈ simple_cycles_list g L none, (c.length : Int) ≤ L) ∧
    (∀ path : List Nat,
      is_path_in_limit g.tipo path L none = true ↔ (path.length : Int) ≤ L) := by
  constructor
  · intro c hc
    have h := simple_cycles_list_limit g L none c hc
    have h2 := (is_path_in_limit_none g.tipo c.reverse L hL).mp h
    simpa using h2
  · intro p
    exact is_path_in_limit_none g.tipo p L hL

/-- Witness for `C2_length_limit` at the 2-cycle and `L = 2`. -/
theorem C2_length_limit_witness :
    (∀ c ∈ simple_cycles_list gTwoCycle 2 none, (c.length : Int) ≤ 2) ∧
    (∀ path : List Nat,
      is_path_in_limit gTwoCycle.tipo path 2 none = true ↔
        (path.length : Int) ≤ 2) :=
  C2_length_limit gTwoCycle 2 (by decide)

/-- C3: with `limit_len = L ≥ 0` and `limit_node_type = T`, every emitted
cycle has at most `L` vertices of type `T`; and on a concrete graph (the
triangle with a single `"tipoA"` vertex, `L = 1`) a cycle longer than `L`
is emitted, so other-typed vertices are unconstrained. -/
theorem C3_typed_limit :
    (∀ (g : Graph) (L : Int) (T : String), 0 ≤ L →
      ∀ c ∈ simple_cycles_list g L (some T),
        (c.countP (fun v => g.tipo v == T) : Int) ≤ L) ∧
    (∃ c ∈ simple_cycles_list gTriTyped 1 (some "tipoA"),
      1 < (c.length : Int)) := by
  constructor
  · intro g L T hL c hc
    have h := simple_cycles_list_limit g L (some T) c hc
    have h2 := is_path_in_limit_some g.tipo c.reverse L T hL h
    rwa [countP_reverse] at h2
  · exact ⟨[0, 1, 2], by decide, by decide⟩

/-- Witness for `C3_typed_limit` on the single-`"tipoA"` triangle with
`L = 1`. -/
theorem C3_typed_limit_witness :
    (∀ c ∈ simple_cycles_list gTriTyped 1 (some "tipoA"),
      (c.countP (fun v => gTriTyped.tipo v == "tipoA") : Int) ≤ 1) ∧
    (∃ c ∈ simple_cycles_list gTriTyped 1 (some "tipoA"),
      1 < (c.length : Int)) :=
  ⟨C3_typed_limit.1 gTriTyped 1 "tipoA" (by decide), C3_typed_limit.2⟩

/-! ## Claims C1, C4, C5: self-loops and duplicate edges -/

/-- C1 (failing input): on `gSelfLoopSCC` (self-loop on vertex 0 inside the
size-2 SCC `{0,1}`) the unlimited run emits the length-1 cycle `[0]` besides
`[0,1]`, so the emitted set is not the set of elementary cycles of length at
least 2.  (Vertex 0 is the anchor CPython's `set.pop()` picks for this SCC.) -/
theorem C1_emits_selfloop_cycle :
    simple_cycles_list gSelfLoopSCC (-1) none = [[0, 1], [0]] := by decide

/-- C4 (failing input): on `gDoubleLoop` both vertices carry self-loops, so
whichever of them is anchored first yields a length-1 cycle; the model's
anchor order emits `[0]`.  `MIN_SCC_SIZE = 2` only suppresses self-loops on
vertices that form their own singleton SCC. -/
theorem C4_length_one_cycle_emitted :
    (simple_cycles_list gDoubleLoop (-1) none).filter
      (fun c => c.length == 1) = [[0]] := by decide

/-- C5 (failing input): duplicating the edge `0→1` of the 2-cycle makes the
run emit the cycle `0,1` twice, while the deduplicated graph emits it
once — duplicate edges do affect cycle enumeration. -/
theorem C5_duplicate_edge_duplicate_emission :
    simple_cycles_list gDupEdge (-1) none = [[0, 1], [0, 1]] ∧
    simple_cycles_list gDupEdgeDedup (-1) none = [[0, 1]] := by
  exact ⟨by decide, by decide⟩

/-! ## Claim C6: argument validation -/

/-- C6: `simple_cycles_ig` fails on an undirected graph, fails when the
limit does not convert to an `int` (checked in this order, before any
search: in the `Except` model an `error` result carries no emitted cycle
and is independent of the search), and succeeds otherwise. -/
theorem C6_validation (g : Graph) (la : LimitArg) (lt : Option String) :
    (g.directed = false →
      simple_cycles_ig g la lt = .error .notDirectedGraph) ∧
    (g.directed = true → la.toInt? = none →
      simple_cycles_ig g la lt = .error (.limitNotInt la)) ∧
    (∀ l : Int, g.directed = true → la.toInt? = some l →
      simple_cycles_ig g la lt = .ok (simple_cycles_list g l lt)) := by
  refine ⟨?_, ?_, ?_⟩
  · intro hdir
    simp [simple_cycles_ig, hdir]
  · intro hdir hparse
    simp [simple_cycles_ig, hdir, hparse]
  · intro l hdir hparse
    simp [simple_cycles_ig, hdir, hparse]

/-- Witness for `C6_validation`: an undirected graph, an unparseable limit,
and a successful configuration. -/
theorem C6_validation_witness :
    simple_cycles_ig gUndir (.int (-1)) none = .error .notDirectedGraph ∧
    simple_cycles_ig gTwoCycle (.str "abc") none =
      .error (.limitNotInt (.str "abc")) ∧
    simple_cycles_ig gTwoCycle (.str "2") none =
      .ok (simple_cycles_list gTwoCycle 2 none) :=
  ⟨(C6_validation gUndir (.int (-1)) none).1 rfl,
   (C6_validation gTwoCycle (.str "abc") none).2.1 rfl (by decide),
   (C6_validation gTwoCycle (.str "2") none).2.2 2 rfl (by decide)⟩

/-! ## Claim C7: the finalize-anchor block -/

/-- C7 (amended): after an anchor `s` is fully processed, `s` is
permanently deleted; the SCCs of the induced subgraph on the residual
vertex set are recomputed with the *default* minimum size 1 (not
`MIN_SCC_SIZE`); the sub-SCCs of size at least `MIN_SCC_SIZE` are the ones
handed back to the worklist (in order), and the vertices of all sub-SCCs
below `MIN_SCC_SIZE` are permanently deleted.  `finalizeAnchor` is exactly
the block executed at the bottom of each outer-loop iteration of
`simple_cycles_ig` (see `outerRun`). -/
theorem C7_finalize_anchor (g : Graph) (residual : List Nat) (s : Nat) :
    finalizeAnchor g residual s =
      (deleteVerts g ([s] ++
        ((strongly_connected_components (induced (deleteVerts g [s]) residual) 1).filter
          (fun c => c.length < MIN_SCC_SIZE)).flatten),
       (strongly_connected_components (induced (deleteVerts g [s]) residual) 1).filter
         (fun c => MIN_SCC_SIZE ≤ c.length)) :=
  finalizeAnchor_eq g residual s

/-- The finalize-anchor block as the spec's words describe it: the SCC
recomputation is called with `minSize = MIN_SCC_SIZE` (so sub-SCCs below
the threshold are never returned, and the subsequent size dispatch never
deletes their vertices).  Second definition kept for comparison with
`finalizeAnchor`, which embeds the source. -/
def finalizeAnchorSpec (g : Graph) (residual : List Nat) (s : Nat) :
    Graph × List (List Nat) :=
  let g1 := deleteVerts g [s]
  let H := induced g1 residual
  let comps := strongly_connected_components H MIN_SCC_SIZE
  comps.foldl
    (fun acc c =>
      if MIN_SCC_SIZE ≤ c.length then (acc.1, acc.2 ++ [c])
      else (deleteVerts acc.1 c, acc.2))
    (g1, ([] : List (List Nat)))

/-- C7 (counterexample): on the triangle `0→1→2→0` (whose single SCC is
`[0,1,2]`, so the run anchors 0 with residual `[1,2]`), the code's
finalize block deletes the residual singleton sub-SCCs `{1}` and `{2}`,
leaving no vertices, whereas recomputing with `minSize = MIN_SCC_SIZE` as
the claim states would return no sub-SCCs and leave vertices 1 and 2 in
the graph. -/
theorem C7_minsize_counterexample :
    strongly_connected_components gTri MIN_SCC_SIZE = [[0, 1, 2]] ∧
    (finalizeAnchor gTri [1, 2] 0).1.verts = [] ∧
    (finalizeAnchorSpec gTri [1, 2] 0).1.verts = [1, 2] := by
  exact ⟨by decide, by decide, by decide⟩

/-! ## Claim C9: exception flow of `search_cycles` -/

/-- C9: once the CSV rows were read successfully, `search_cycles` returns
normally whatever the enumeration and the cycle writes do (their exceptions
are caught, logged and suppressed by its `try`/`except` block), while a
failure opening or reading the CSV input happens before the `try` block and
propagates. -/
theorem C9_search_cycles_exceptions (rows : List (String × String))
    (write : List Nat → Except String Unit) (la : LimitArg)
    (lt : Option String) :
    search_cycles (.ok rows) write la lt = .ok () ∧
    ∀ e : String, search_cycles (.error e) write la lt = .error e := by
  constructor
  · rcases h : simple_cycles_ig (buildGraph rows) la lt with e | cycles
    · simp [search_cycles, h]
    · rcases h2 : writeAll write cycles with e2 | u
      · simp [search_cycles, h, h2]
      · simp [search_cycles, h, h2]
  · intro e; rfl

/-! ## Claim C10: the inner-loop invariant -/

/-- `popFrame` pops the frame stack. -/
theorem popFrame_stack (g : Graph) (v : Nat) (rest : List (Nat × List Nat))
    (st : SearchSt) : (popFrame g v rest st).stack = rest := by
  unfold popFrame
  split <;> rfl

/-- `popFrame` pops the path. -/
theorem popFrame_path (g : Graph) (v : Nat) (rest : List (Nat × List Nat))
    (st : SearchSt) : (popFrame g v rest st).path = st.path.tail := by
  unfold popFrame
  split <;> rfl

/-- One loop iteration preserves the frame-stack/path correspondence. -/
theorem innerStep_map_fst (g : Graph) (ll : Int) (lt : Option String)
    (s : Nat) (st : SearchSt)
    (h : st.stack.map Prod.fst = st.path) :
    (innerStep g ll lt s st).stack.map Prod.fst =
      (innerStep g ll lt s st).path := by
  rcases hst : st.stack with _ | ⟨⟨v, l⟩, rest⟩
  · simp only [innerStep, hst]
    rw [hst] at h
    exact h
  · have hpath : st.path = v :: rest.map Prod.fst := by
      rw [← h, hst]
      rfl
    rcases hl : l with _ | ⟨x, l'⟩
    · simp [innerStep, hst, hl, popFrame_stack, popFrame_path, hpath]
    · by_cases hg : is_path_in_limit g.tipo st.path ll lt = true
      · rw [hpath] at hg
        by_cases hx : x = s
        · by_cases hle : l' = [] <;>
            simp [innerStep, hst, hl, hg, hx, hle, popFrame_stack,
              popFrame_path, hpath]
        · by_cases hb : st.blocked.contains x
          · have hb' : x ∈ st.blocked := by simpa using hb
            by_cases hle : l' = [] <;>
              simp [innerStep, hst, hl, hg, hx, hb, hb', hle, popFrame_stack,
                popFrame_path, hpath]
          · have hb' : ¬ x ∈ st.blocked := by simpa using hb
            simp [innerStep, hst, hl, hg, hx, hb, hb', hpath]
      · have hg' : is_path_in_limit g.tipo st.path ll lt = false := by
          simpa using hg
        rw [hpath] at hg'
        simp [innerStep, hst, hl, hg', popFrame_stack, popFrame_path, hpath]

/-- C10 (amended): at every evaluation of the inner loop's guard — i.e. at
the loop head reached after any number of iterations from the per-anchor
initial state — the frame stack and the path have the same length and the
i-th frame's vertex is the i-th path element.  (The remaining conjuncts of
the claim are refuted by `C10_invariant_counterexample`.) -/
theorem C10_stack_path_agreement (g : Graph) (ll : Int) (lt : Option String)
    (s : Nat) (k : Nat) :
    ((innerStep g ll lt s)^[k] (initSearch g s)).stack.map Prod.fst =
        ((innerStep g ll lt s)^[k] (initSearch g s)).path ∧
    ((innerStep g ll lt s)^[k] (initSearch g s)).stack.length =
        ((innerStep g ll lt s)^[k] (initSearch g s)).path.length := by
  have hmap : ∀ k : Nat,
      ((innerStep g ll lt s)^[k] (initSearch g s)).stack.map Prod.fst =
        ((innerStep g ll lt s)^[k] (initSearch g s)).path := by
    intro k
    induction k with
    | zero => simp [initSearch]
    | succ k ih =>
      rw [Function.iterate_succ_apply']
      exact innerStep_map_fst g ll lt s _ ih
  refine ⟨hmap k, ?_⟩
  rw [← hmap k, List.length_map]

/-- C10 (counterexample): on the strongly connected graph `gInv` (single
SCC `[0,1,2,3,4]`, so the run anchors 0 on the unmodified graph) with
`limit_len = 3` and no type restriction, the state at the 15th guard
evaluation has the on-path vertex 2 absent from `blocked`, and the state at
the 19th guard evaluation has a path (`[2,1,2,0]`, most recent first) that
repeats vertex 2 — refuting both the path-is-blocked and the
path-distinctness conjuncts of the claimed invariant. -/
theorem C10_invariant_counterexample :
    strongly_connected_components gInv MIN_SCC_SIZE = [[0, 1, 2, 3, 4]] ∧
    ((innerStep gInv 3 none 0)^[14] (initSearch gInv 0)).stack ≠ [] ∧
    (((innerStep gInv 3 none 0)^[14] (initSearch gInv 0)).path.all
      (fun v =>
        ((innerStep gInv 3 none 0)^[14] (initSearch gInv 0)).blocked.contains v))
      = false ∧
    ((innerStep gInv 3 none 0)^[18] (initSearch gInv 0)).stack ≠ [] ∧
    ¬ ((innerStep gInv 3 none 0)^[18] (initSearch gInv 0)).path.Nodup := by
  exact ⟨by decide, by decide, by decide, by decide, by decide⟩
